import Mathlib

/-!
Shallow embedding of the `todos` Anchor program (`programs/todos/src/lib.rs`).

The program keeps todo lists with escrowed bounties.  Accounts live on a
ledger; we model the ledger as three pieces of state: the map from list
addresses (program-derived addresses) to `TodoList` records, the map from
item account keys to `ListItem` records, and the lamport balance of every
account key.  Each instruction handler becomes a function
`World → Except TxError World`; a failed instruction aborts the whole
transaction, so an `.error` result leaves the world unchanged.

Machine integers: lamport amounts and bounties are `u64` in the source and
are modelled as `Nat`; the only arithmetic on them is `checked_sub` (modelled
with an explicit comparison), addition of balances (which the runtime keeps
below 2^64 globally), and subtraction guarded by a sufficiency check, so no
wrap-around can occur and the `Nat` semantics agrees with the `u64` one.
`capacity : u16` and `bump : u8` are modelled by reducing the supplied
argument modulo 2^16 resp. 2^8 at the decoding boundary.
-/

namespace Todos

/-- Account public keys, abstracted as naturals. -/
abbrev Pubkey := Nat

/-- The error enum declared by the program (`#[error_code] pub enum ErrorCode`). -/
inductive ErrorCode
  | ListFull
  | BountyTooSmall
  | CancelPermissions
  | FinishPermissions
  | ItemNotFound
  | WrongListOwner
  | WrongItemCreator
deriving DecidableEq, Repr

/-- Transaction-level outcomes: either a program error code, or a failure of
the runtime / account-validation layer (Anchor `init` on an existing account,
deserializing a missing account, an insufficient-funds system transfer). -/
inductive TxError
  | program (code : ErrorCode)
  | accountInUse
  | accountNotInitialized
  | insufficientFunds
deriving DecidableEq, Repr

/-- `pub struct ListItem` — the item record stored in an item account. -/
structure ListItem where
  creator : Pubkey
  creator_finished : Bool
  list_owner_finished : Bool
  name : String
deriving DecidableEq, Repr

/-- `pub struct TodoList` — the list record stored in a list account. -/
structure TodoList where
  list_owner : Pubkey
  capacity : Nat
  bump : Nat
  name : String
  lines : List Pubkey
deriving DecidableEq, Repr

/-- The UTF-8 bytes of a string (`str::as_bytes` in Rust), computed by the
reference encoder. -/
def utf8Bytes (s : String) : List UInt8 :=
  s.data.flatMap String.utf8EncodeChar

/-- `fn name_seed(name: &str) -> &[u8]`: the name's UTF-8 bytes, truncated to
the first 32 bytes when longer. -/
def name_seed (name : String) : List UInt8 :=
  let b := utf8Bytes name
  if b.length > 32 then b.take 32 else b

/-- A program-derived list address.  The real chain hashes
`[b"todolist", owner, name_seed name]` (plus a bump); the spec assumes the
hash collision-resistant, so we model the address by the seed tuple itself
(the constant `b"todolist"` tag is common to every address and omitted). -/
structure ListAddr where
  owner : Pubkey
  seed : List UInt8
deriving DecidableEq, Repr

/-- The address at which the list of `owner` named `name` lives
(`seeds=[b"todolist", user.key(), name_seed(&name)]`). -/
def listAddress (owner : Pubkey) (name : String) : ListAddr :=
  ⟨owner, name_seed name⟩

/-- Lookup in an association list of accounts. -/
def alookup {α β : Type} [DecidableEq α] : List (α × β) → α → Option β
  | [], _ => none
  | (k, v) :: rest, a => if k = a then some v else alookup rest a

/-- Overwrite the value stored under key `a` (position-preserving). -/
def aset {α β : Type} [DecidableEq α] (l : List (α × β)) (a : α) (b : β) :
    List (α × β) :=
  l.map fun p => if p.1 = a then (a, b) else p

/-- Delete the entry stored under key `a`. -/
def aremove {α β : Type} [DecidableEq α] (l : List (α × β)) (a : α) :
    List (α × β) :=
  l.filter fun p => p.1 ≠ a

/-- Pointwise update of a balance table. -/
def upd (f : Pubkey → Nat) (k : Pubkey) (v : Nat) : Pubkey → Nat :=
  fun x => if x = k then v else f x

/-- The on-chain state the program touches: list accounts, item accounts and
lamport balances. -/
structure World where
  lists : List (ListAddr × TodoList)
  items : List (Pubkey × ListItem)
  lam : Pubkey → Nat

/-- `new_list` instruction.  Anchor `init` allocates the list account at the
derived address and fails if an account already exists there; the handler
then stores owner, name, capacity and bump.  (The rent paid into the list
account never moves again — lists are never closed — so list-account
balances are not tracked.) -/
def new_list (user : Pubkey) (name : String) (capacity : Nat)
    (account_bump : Nat) (w : World) : Except TxError World :=
  let addr := listAddress user name
  match alookup w.lists addr with
  | some _ => .error .accountInUse
  | none =>
      .ok { w with
              lists := (addr,
                { list_owner := user
                  capacity := capacity % 65536
                  bump := account_bump % 256
                  name := name
                  lines := [] }) :: w.lists }

/-- `add` instruction.  Account validation resolves the list at the derived
address for `(list_owner, list_name)`, checks `has_one = list_owner`, and
`init`s the item account (fresh key, `rent` lamports moved from the payer).
The handler then enforces capacity, appends the item key to `lines`, fills
in the item record, and moves `bounty - rent` further lamports from the
creator into the item account (checked subtraction; no transfer when the
gap is zero). -/
def add (user item_key list_owner : Pubkey) (list_name item_name : String)
    (bounty rent : Nat) (w : World) : Except TxError World :=
  let addr := listAddress list_owner list_name
  match alookup w.lists addr with
  | none => .error .accountNotInitialized
  | some list =>
      if list.list_owner ≠ list_owner then .error (.program .WrongListOwner)
      else match alookup w.items item_key with
      | some _ => .error .accountInUse
      | none =>
          if w.lam user < rent then .error .insufficientFunds
          else
            let lam0 := upd (upd w.lam user (w.lam user - rent)) item_key rent
            if list.lines.length < list.capacity then
              let lines1 := list.lines ++ [item_key]
              let item : ListItem :=
                { creator := user
                  creator_finished := false
                  list_owner_finished := false
                  name := item_name }
              let account_lamports := lam0 item_key
              if bounty < account_lamports then
                .error (.program .BountyTooSmall)
              else
                let transfer_amount := bounty - account_lamports
                if transfer_amount > 0 then
                  if lam0 user < transfer_amount then .error .insufficientFunds
                  else
                    .ok { lists := aset w.lists addr { list with lines := lines1 }
                          items := (item_key, item) :: w.items
                          lam := upd (upd lam0 user (lam0 user - transfer_amount))
                                   item_key (lam0 item_key + transfer_amount) }
                else
                  .ok { lists := aset w.lists addr { list with lines := lines1 }
                        items := (item_key, item) :: w.items
                        lam := lam0 }
            else .error (.program .ListFull)

/-- `cancel` instruction.  Account validation resolves the list (derived
address + `has_one`), deserializes the item, and checks
`address = item.creator` on the supplied `item_creator` account.  The
handler requires the caller to be list owner or item creator, requires the
list to reference the item, closes the item into `item_creator`, and
removes the reference (`retain`). -/
def cancel (user list_owner : Pubkey) (list_name : String)
    (item_key item_creator : Pubkey) (w : World) : Except TxError World :=
  let addr := listAddress list_owner list_name
  match alookup w.lists addr with
  | none => .error .accountNotInitialized
  | some list =>
      if list.list_owner ≠ list_owner then .error (.program .WrongListOwner)
      else match alookup w.items item_key with
      | none => .error .accountNotInitialized
      | some item =>
          if item_creator ≠ item.creator then .error (.program .WrongItemCreator)
          else if ¬ (list.list_owner = user ∨ item.creator = user) then
            .error (.program .CancelPermissions)
          else if item_key ∉ list.lines then .error (.program .ItemNotFound)
          else
            .ok { lists := aset w.lists addr
                    { list with lines := list.lines.filter (· ≠ item_key) }
                  items := aremove w.items item_key
                  lam := upd (upd w.lam item_creator
                           (w.lam item_creator + w.lam item_key)) item_key 0 }

/-- `finish` instruction.  Account validation resolves the list (derived
address + `has_one`, the `list_owner` account doubling as payout recipient)
and deserializes the item.  The handler requires the list to reference the
item, requires the caller to be item creator or list owner, sets the
caller's confirmation flag(s), and when both flags are true removes the
reference and closes the item into the list owner. -/
def finish (user list_owner : Pubkey) (list_name : String) (item_key : Pubkey)
    (w : World) : Except TxError World :=
  let addr := listAddress list_owner list_name
  match alookup w.lists addr with
  | none => .error .accountNotInitialized
  | some list =>
      if list.list_owner ≠ list_owner then .error (.program .WrongListOwner)
      else match alookup w.items item_key with
      | none => .error .accountNotInitialized
      | some item =>
          if item_key ∉ list.lines then .error (.program .ItemNotFound)
          else
            let is_item_creator : Bool := item.creator = user
            let is_list_owner : Bool := list.list_owner = user
            if is_item_creator || is_list_owner then
              let item1 : ListItem :=
                { item with
                    creator_finished := item.creator_finished || is_item_creator
                    list_owner_finished := item.list_owner_finished || is_list_owner }
              if item1.creator_finished && item1.list_owner_finished then
                .ok { lists := aset w.lists addr
                        { list with lines := list.lines.filter (· ≠ item_key) }
                      items := aremove w.items item_key
                      lam := upd (upd w.lam list_owner
                               (w.lam list_owner + w.lam item_key)) item_key 0 }
              else
                .ok { w with items := aset w.items item_key item1 }
            else .error (.program .FinishPermissions)

/-- One client request: any of the four instructions with arbitrary
caller-chosen arguments. -/
inductive Op
  | opNewList (user : Pubkey) (name : String) (capacity account_bump : Nat)
  | opAdd (user item_key list_owner : Pubkey) (list_name item_name : String)
      (bounty rent : Nat)
  | opCancel (user list_owner : Pubkey) (list_name : String)
      (item_key item_creator : Pubkey)
  | opFinish (user list_owner : Pubkey) (list_name : String) (item_key : Pubkey)

/-- Run one request against the world. -/
def applyOp : Op → World → Except TxError World
  | .opNewList u n c b, w => new_list u n c b w
  | .opAdd u ik lo ln itn bo r, w => add u ik lo ln itn bo r w
  | .opCancel u lo ln ik ic, w => cancel u lo ln ik ic w
  | .opFinish u lo ln ik, w => finish u lo ln ik w

/-- A step of the system: some request succeeds (a failed request reverts
and does not change the world). -/
def Step (w w' : World) : Prop := ∃ op, applyOp op w = .ok w'

/-- A pristine world: no list or item account exists yet (wallet balances
are arbitrary). -/
def Init (w : World) : Prop := w.lists = [] ∧ w.items = []

/-- A world reachable from some pristine world by program requests. -/
def Reachable (w : World) : Prop :=
  ∃ w0, Init w0 ∧ Relation.ReflTransGen Step w0 w

/-- All item references held by all lists, concatenated. -/
def flatLines (w : World) : List Pubkey :=
  (w.lists.map fun p => p.2.lines).flatten

/-! ### Association-list lemmas -/

theorem alookup_eq_none {α β : Type} [DecidableEq α] {l : List (α × β)} {a : α} :
    alookup l a = none ↔ a ∉ l.map Prod.fst := by
  induction l with
  | nil => simp [alookup]
  | cons p rest ih =>
      obtain ⟨k, v⟩ := p
      simp only [alookup, List.map_cons, List.mem_cons]
      by_cases hk : k = a
      · subst hk; simp
      · rw [if_neg hk, ih]
        constructor
        · rintro h (h1 | h2)
          · exact hk h1.symm
          · exact h h2
        · intro h hmem
          exact h (Or.inr hmem)

theorem alookup_split {α β : Type} [DecidableEq α] {l : List (α × β)} {a : α}
    {b : β} (h : alookup l a = some b) :
    ∃ l1 l2, l = l1 ++ (a, b) :: l2 ∧ a ∉ l1.map Prod.fst := by
  induction l with
  | nil => simp [alookup] at h
  | cons p rest ih =>
      obtain ⟨k, v⟩ := p
      by_cases hk : k = a
      · subst hk
        simp [alookup] at h
        exact ⟨[], rest, by simp [h]⟩
      · simp [alookup, hk] at h
        obtain ⟨l1, l2, hrest, hnot⟩ := ih h
        exact ⟨(k, v) :: l1, l2, by simp [hrest], by simp [hnot, hk, Ne.symm]⟩

theorem map_fst_aset {α β : Type} [DecidableEq α] (l : List (α × β)) (a : α)
    (b : β) : (aset l a b).map Prod.fst = l.map Prod.fst := by
  unfold aset
  rw [List.map_map]
  apply List.map_congr_left
  intro p _
  by_cases hk : p.1 = a
  · simp [Function.comp, hk]
  · simp [Function.comp, hk]

theorem aset_not_mem {α β : Type} [DecidableEq α] {l : List (α × β)} {a : α}
    (b : β) (h : a ∉ l.map Prod.fst) : aset l a b = l := by
  induction l with
  | nil => rfl
  | cons p rest ih =>
      rw [List.map_cons, List.mem_cons] at h
      push_neg at h
      show (if p.1 = a then (a, b) else p) :: aset rest a b = p :: rest
      rw [if_neg (fun hp => h.1 hp.symm), ih h.2]

theorem aset_split {α β : Type} [DecidableEq α] {l1 l2 : List (α × β)} {a : α}
    {b : β} (b' : β) (h1 : a ∉ l1.map Prod.fst) (h2 : a ∉ l2.map Prod.fst) :
    aset (l1 ++ (a, b) :: l2) a b' = l1 ++ (a, b') :: l2 := by
  unfold aset
  rw [List.map_append, List.map_cons]
  congr 1
  · exact aset_not_mem b' h1
  · congr 1
    · simp
    · exact aset_not_mem b' h2

theorem alookup_aremove_self {α β : Type} [DecidableEq α] (l : List (α × β))
    (a : α) : alookup (aremove l a) a = none := by
  rw [alookup_eq_none]
  intro hmem
  obtain ⟨p, hp, hfst⟩ := List.mem_map.mp hmem
  have h2 := (List.mem_filter.mp hp).2
  rw [hfst] at h2
  simp at h2

theorem mem_map_fst_aremove {α β : Type} [DecidableEq α] {l : List (α × β)}
    {a x : α} : x ∈ (aremove l a).map Prod.fst ↔
      x ∈ l.map Prod.fst ∧ x ≠ a := by
  constructor
  · intro hmem
    obtain ⟨p, hp, hfst⟩ := List.mem_map.mp hmem
    have hf := List.mem_filter.mp hp
    refine ⟨List.mem_map.mpr ⟨p, hf.1, hfst⟩, ?_⟩
    subst hfst
    simpa using hf.2
  · rintro ⟨hmem, hne⟩
    obtain ⟨p, hp, hfst⟩ := List.mem_map.mp hmem
    refine List.mem_map.mpr ⟨p, List.mem_filter.mpr ⟨hp, ?_⟩, hfst⟩
    subst hfst
    simpa using hne

theorem nodup_map_fst_aremove {α β : Type} [DecidableEq α]
    {l : List (α × β)} {a : α} (h : (l.map Prod.fst).Nodup) :
    ((aremove l a).map Prod.fst).Nodup := by
  have hs : List.Sublist (aremove l a) l := List.filter_sublist l
  exact (hs.map Prod.fst).nodup h

theorem alookup_aset_self {α β : Type} [DecidableEq α] {l : List (α × β)}
    {a : α} {c : β} (h : alookup l a = some c) (b : β) :
    alookup (aset l a b) a = some b := by
  induction l with
  | nil => simp [alookup] at h
  | cons p rest ih =>
      obtain ⟨k, v⟩ := p
      by_cases hk : k = a
      · subst hk
        show alookup ((if k = k then (k, b) else (k, v)) :: aset rest k b) k = some b
        rw [if_pos rfl]
        simp [alookup]
      · show alookup ((if k = a then (a, b) else (k, v)) :: aset rest a b) a = some b
        rw [if_neg hk]
        simp only [alookup, if_neg hk]
        simp only [alookup, if_neg hk] at h
        exact ih h

theorem aremove_aset {α β : Type} [DecidableEq α] (l : List (α × β)) (a : α)
    (b : β) : aremove (aset l a b) a = aremove l a := by
  induction l with
  | nil => rfl
  | cons p rest ih =>
      by_cases hk : p.1 = a
      · show aremove ((if p.1 = a then (a, b) else p) :: aset rest a b) a = _
        rw [if_pos hk]
        show List.filter _ ((a, b) :: aset rest a b) = List.filter _ (p :: rest)
        rw [List.filter_cons, List.filter_cons, if_neg (by simp),
          if_neg (by simp [hk])]
        exact ih
      · show aremove ((if p.1 = a then (a, b) else p) :: aset rest a b) a = _
        rw [if_neg hk]
        show List.filter _ (p :: aset rest a b) = List.filter _ (p :: rest)
        rw [List.filter_cons, List.filter_cons, if_pos (by simp [hk]),
          if_pos (by simp [hk])]
        show p :: aremove (aset rest a b) a = p :: aremove rest a
        rw [ih]

theorem alookup_aremove_ne {α β : Type} [DecidableEq α] (l : List (α × β))
    (a : α) {x : α} (hx : x ≠ a) : alookup (aremove l a) x = alookup l x := by
  induction l with
  | nil => rfl
  | cons p rest ih =>
      obtain ⟨k, v⟩ := p
      show alookup (List.filter _ ((k, v) :: rest)) x = _
      rw [List.filter_cons]
      by_cases hk : k = a
      · have hcond : (decide ((k, v).1 ≠ a)) = false := by simp [hk]
        simp only [hcond, if_false]
        show alookup (aremove rest a) x = _
        rw [ih]
        simp only [alookup]
        rw [if_neg (fun h => hx (h.symm.trans hk))]
      · have hcond : (decide ((k, v).1 ≠ a)) = true := by simp [hk]
        simp only [hcond, if_true]
        show alookup ((k, v) :: aremove rest a) x = _
        simp only [alookup]
        by_cases hkx : k = x
        · simp [hkx]
        · simp only [if_neg hkx]
          exact ih

theorem alookup_split_nodup {α β : Type} [DecidableEq α] {l : List (α × β)}
    {a : α} {b : β} (hn : (l.map Prod.fst).Nodup) (h : alookup l a = some b) :
    ∃ l1 l2, l = l1 ++ (a, b) :: l2 ∧ a ∉ l1.map Prod.fst ∧
      a ∉ l2.map Prod.fst := by
  obtain ⟨l1, l2, hl, h1⟩ := alookup_split h
  refine ⟨l1, l2, hl, h1, ?_⟩
  rw [hl, List.map_append, List.map_cons] at hn
  exact (List.nodup_cons.mp (List.nodup_append.mp hn).2.1).1

theorem nodup_filter_ne_eq_erase {l : List Pubkey} {a : Pubkey}
    (hn : l.Nodup) : l.filter (· ≠ a) = l.erase a := by
  rw [hn.erase_eq_filter]
  apply List.filter_congr
  intro x _
  by_cases h : x = a <;> simp [h]

/-! ### Reachability invariant

The invariant behind claims C4 and C10: list-account and item-account keys
are unique, every item reference appearing in any list points at a live
item account, no item reference appears twice (in one list or across two
lists), and no list holds more references than its capacity. -/

structure Inv (w : World) : Prop where
  listKeys : (w.lists.map Prod.fst).Nodup
  itemKeys : (w.items.map Prod.fst).Nodup
  flatNodup : (flatLines w).Nodup
  flatMem : ∀ k, k ∈ flatLines w → k ∈ w.items.map Prod.fst
  cap : ∀ p, p ∈ w.lists → p.2.lines.length ≤ p.2.capacity

theorem flatLines_decomp (l1 l2 : List (ListAddr × TodoList)) (a : ListAddr)
    (L : TodoList) (items : List (Pubkey × ListItem)) (lam : Pubkey → Nat) :
    flatLines ⟨l1 ++ (a, L) :: l2, items, lam⟩
      = (l1.map fun p => p.2.lines).flatten
        ++ (L.lines ++ (l2.map fun p => p.2.lines).flatten) := by
  simp [flatLines, List.map_append, List.flatten_append]

theorem inv_init {w : World} (h : Init w) : Inv w := by
  obtain ⟨h1, h2⟩ := h
  constructor <;> simp [h1, h2, flatLines]

/-- The shared shape of the two item-closing paths (`cancel`, and `finish`
when both confirmation flags are set): remove the reference from the list,
delete the item account, move lamports around.  Any such transition
preserves the invariant. -/
theorem inv_close {w : World} {addr : ListAddr} {list : TodoList} {k : Pubkey}
    (hInv : Inv w) (hl : alookup w.lists addr = some list)
    (hk : k ∈ list.lines) (lam' : Pubkey → Nat) :
    Inv ⟨aset w.lists addr { list with lines := list.lines.filter (· ≠ k) },
         aremove w.items k, lam'⟩ := by
  obtain ⟨l1, l2, hdecomp, h1, h2⟩ := alookup_split_nodup hInv.listKeys hl
  have hset : aset w.lists addr { list with lines := list.lines.filter (· ≠ k) }
      = l1 ++ (addr, { list with lines := list.lines.filter (· ≠ k) }) :: l2 := by
    rw [hdecomp]; exact aset_split _ h1 h2
  set F1 := (l1.map fun p => p.2.lines).flatten with hF1
  set F2 := (l2.map fun p => p.2.lines).flatten with hF2
  have hflat_old : flatLines w = F1 ++ (list.lines ++ F2) := by
    have : w = ⟨l1 ++ (addr, list) :: l2, w.items, w.lam⟩ := by
      cases w; simp at hdecomp ⊢; exact hdecomp
    rw [this]
    exact flatLines_decomp l1 l2 addr list w.items w.lam
  have hflat_new :
      flatLines ⟨aset w.lists addr { list with lines := list.lines.filter (· ≠ k) },
        aremove w.items k, lam'⟩
      = F1 ++ (list.lines.filter (· ≠ k) ++ F2) := by
    rw [hset]
    exact flatLines_decomp l1 l2 addr _ _ _
  have hsub : List.Sublist (F1 ++ (list.lines.filter (· ≠ k) ++ F2))
      (F1 ++ (list.lines ++ F2)) :=
    ((List.filter_sublist list.lines).append_right F2).append_left F1
  have hNodup_old := hInv.flatNodup
  rw [hflat_old] at hNodup_old
  -- k appears nowhere in the new flattened reference list
  have hkF1 : k ∉ F1 := by
    intro hmem
    exact (List.nodup_append.mp hNodup_old).2.2 hmem (List.mem_append_left F2 hk)
  have hkF2 : k ∉ F2 := by
    intro hmem
    have := (List.nodup_append.mp ((List.nodup_append.mp hNodup_old).2.1)).2.2
    exact this hk hmem
  have hknew : k ∉ F1 ++ (list.lines.filter (· ≠ k) ++ F2) := by
    intro hmem
    rcases List.mem_append.mp hmem with hm | hm
    · exact hkF1 hm
    · rcases List.mem_append.mp hm with hm2 | hm2
      · have := (List.mem_filter.mp hm2).2
        simp at this
      · exact hkF2 hm2
  constructor
  · rw [map_fst_aset]; exact hInv.listKeys
  · exact nodup_map_fst_aremove hInv.itemKeys
  · rw [hflat_new]; exact hNodup_old.sublist hsub
  · intro x hx
    rw [hflat_new] at hx
    have hxold : x ∈ flatLines w := by
      rw [hflat_old]; exact hsub.subset hx
    have hxk : x ≠ k := fun hxe => hknew (hxe ▸ hx)
    exact mem_map_fst_aremove.mpr ⟨hInv.flatMem x hxold, hxk⟩
  · intro p hp
    rw [hset] at hp
    rcases List.mem_append.mp hp with hm | hm
    · exact hInv.cap p (by rw [hdecomp]; exact List.mem_append_left _ hm)
    · rcases List.mem_cons.mp hm with hm2 | hm2
      · subst hm2
        have hcard := hInv.cap (addr, list)
          (by rw [hdecomp]; exact List.mem_append_right _ (List.mem_cons_self _ _))
        have : (list.lines.filter (· ≠ k)).length ≤ list.lines.length :=
          List.length_filter_le _ _
        exact le_trans this hcard
      · exact hInv.cap p (by
          rw [hdecomp]
          exact List.mem_append_right _ (List.mem_cons_of_mem _ hm2))

/-- The reference-inserting path of `add`: append a fresh item key to the
list and create the item account.  Any such transition preserves the
invariant. -/
theorem inv_insert {w : World} {addr : ListAddr} {list : TodoList} {k : Pubkey}
    (item : ListItem) (hInv : Inv w) (hl : alookup w.lists addr = some list)
    (hfresh : alookup w.items k = none)
    (hlen : list.lines.length < list.capacity) (lam'' : Pubkey → Nat) :
    Inv ⟨aset w.lists addr { list with lines := list.lines ++ [k] },
         (k, item) :: w.items, lam''⟩ := by
  obtain ⟨l1, l2, hdecomp, h1, h2⟩ := alookup_split_nodup hInv.listKeys hl
  have hset : aset w.lists addr { list with lines := list.lines ++ [k] }
      = l1 ++ (addr, { list with lines := list.lines ++ [k] }) :: l2 := by
    rw [hdecomp]; exact aset_split _ h1 h2
  set F1 := (l1.map fun p => p.2.lines).flatten with hF1
  set F2 := (l2.map fun p => p.2.lines).flatten with hF2
  have hflat_old : flatLines w = F1 ++ (list.lines ++ F2) := by
    have : w = ⟨l1 ++ (addr, list) :: l2, w.items, w.lam⟩ := by
      cases w; simp at hdecomp ⊢; exact hdecomp
    rw [this]
    exact flatLines_decomp l1 l2 addr list w.items w.lam
  have hflat_new :
      flatLines ⟨aset w.lists addr { list with lines := list.lines ++ [k] },
        (k, item) :: w.items, lam''⟩
      = F1 ++ ((list.lines ++ [k]) ++ F2) := by
    rw [hset]
    exact flatLines_decomp l1 l2 addr _ _ _
  have hkfresh : k ∉ flatLines w := by
    intro hmem
    have := hInv.flatMem k hmem
    exact (alookup_eq_none.mp hfresh) this
  have e1 : F1 ++ ((list.lines ++ [k]) ++ F2) = (F1 ++ list.lines) ++ (k :: F2) := by
    simp [List.append_assoc]
  have e2 : F1 ++ (list.lines ++ F2) = (F1 ++ list.lines) ++ F2 := by
    simp [List.append_assoc]
  have hperm : List.Perm (k :: ((F1 ++ list.lines) ++ F2))
      ((F1 ++ list.lines) ++ (k :: F2)) := List.perm_middle.symm
  constructor
  · rw [map_fst_aset]; exact hInv.listKeys
  · rw [List.map_cons]
    exact List.nodup_cons.mpr ⟨alookup_eq_none.mp hfresh, hInv.itemKeys⟩
  · rw [hflat_new, e1]
    apply hperm.nodup
    apply List.nodup_cons.mpr
    refine ⟨?_, ?_⟩
    · rw [← e2, ← hflat_old]; exact hkfresh
    · rw [← e2, ← hflat_old]; exact hInv.flatNodup
  · intro x hx
    rw [hflat_new, e1] at hx
    have hx2 : x ∈ k :: ((F1 ++ list.lines) ++ F2) := hperm.symm.subset hx
    rw [List.map_cons, List.mem_cons]
    rcases List.mem_cons.mp hx2 with hxk | hxold
    · exact Or.inl hxk
    · refine Or.inr (hInv.flatMem x ?_)
      rw [hflat_old, e2]; exact hxold
  · intro p hp
    rw [hset] at hp
    rcases List.mem_append.mp hp with hm | hm
    · exact hInv.cap p (by rw [hdecomp]; exact List.mem_append_left _ hm)
    · rcases List.mem_cons.mp hm with hm2 | hm2
      · subst hm2
        simp only [List.length_append, List.length_cons, List.length_nil]
        omega
      · exact hInv.cap p (by
          rw [hdecomp]
          exact List.mem_append_right _ (List.mem_cons_of_mem _ hm2))

/-- Rewriting an existing item record in place (the flag-only branch of
`finish`) preserves the invariant. -/
theorem inv_aset_item {w : World} {k : Pubkey} (item1 : ListItem)
    (hInv : Inv w) : Inv { w with items := aset w.items k item1 } := by
  constructor
  · exact hInv.listKeys
  · rw [map_fst_aset]; exact hInv.itemKeys
  · exact hInv.flatNodup
  · intro x hx
    rw [map_fst_aset]
    exact hInv.flatMem x hx
  · exact hInv.cap

theorem inv_new_list {u : Pubkey} {n : String} {c b : Nat} {w w' : World}
    (hInv : Inv w) (h : new_list u n c b w = .ok w') : Inv w' := by
  simp only [new_list] at h
  split at h
  · exact absurd h (by simp)
  · rename_i hnone
    injection h with h
    subst h
    constructor
    · rw [List.map_cons]
      exact List.nodup_cons.mpr ⟨alookup_eq_none.mp hnone, hInv.listKeys⟩
    · exact hInv.itemKeys
    · show ((List.map _ (_ :: w.lists)).flatten).Nodup
      rw [List.map_cons, List.flatten_cons]
      exact hInv.flatNodup
    · intro x hx
      apply hInv.flatMem x
      show x ∈ flatLines w
      revert hx
      show x ∈ (List.map _ (_ :: w.lists)).flatten → _
      rw [List.map_cons, List.flatten_cons]
      exact fun hx => hx
    · intro p hp
      rcases List.mem_cons.mp hp with hm | hm
      · subst hm; simp
      · exact hInv.cap p hm

theorem inv_add {u k lo : Pubkey} {ln itn : String} {bo r : Nat} {w w' : World}
    (hInv : Inv w) (h : add u k lo ln itn bo r w = .ok w') : Inv w' := by
  simp only [add] at h
  split at h
  · exact absurd h (by simp)
  · rename_i list hlist
    split at h
    · exact absurd h (by simp)
    · split at h
      · exact absurd h (by simp)
      · rename_i hfresh
        split at h
        · exact absurd h (by simp)
        · split at h
          · rename_i hlen
            split at h
            · exact absurd h (by simp)
            · split at h
              · split at h
                · exact absurd h (by simp)
                · injection h with h
                  subst h
                  exact inv_insert _ hInv hlist hfresh hlen _
              · injection h with h
                subst h
                exact inv_insert _ hInv hlist hfresh hlen _
          · exact absurd h (by simp)

theorem inv_cancel {u lo : Pubkey} {ln : String} {k ic : Pubkey} {w w' : World}
    (hInv : Inv w) (h : cancel u lo ln k ic w = .ok w') : Inv w' := by
  simp only [cancel] at h
  split at h
  · exact absurd h (by simp)
  · rename_i list hlist
    split at h
    · exact absurd h (by simp)
    · split at h
      · exact absurd h (by simp)
      · rename_i item hitem
        split at h
        · exact absurd h (by simp)
        · split at h
          · exact absurd h (by simp)
          · split at h
            · exact absurd h (by simp)
            · rename_i hmem
              injection h with h
              subst h
              rw [not_not] at hmem
              exact inv_close hInv hlist hmem _

theorem inv_finish {u lo : Pubkey} {ln : String} {k : Pubkey} {w w' : World}
    (hInv : Inv w) (h : finish u lo ln k w = .ok w') : Inv w' := by
  simp only [finish] at h
  split at h
  · exact absurd h (by simp)
  · rename_i list hlist
    split at h
    · exact absurd h (by simp)
    · split at h
      · exact absurd h (by simp)
      · rename_i item hitem
        split at h
        · exact absurd h (by simp)
        · rename_i hmem
          rw [not_not] at hmem
          split at h
          · split at h
            · injection h with h
              subst h
              exact inv_close hInv hlist hmem _
            · injection h with h
              subst h
              exact inv_aset_item _ hInv
          · exact absurd h (by simp)

theorem inv_applyOp {op : Op} {w w' : World} (hInv : Inv w)
    (h : applyOp op w = .ok w') : Inv w' := by
  cases op with
  | opNewList u n c b => exact inv_new_list hInv h
  | opAdd u ik lo ln itn bo r => exact inv_add hInv h
  | opCancel u lo ln ik ic => exact inv_cancel hInv h
  | opFinish u lo ln ik => exact inv_finish hInv h

theorem inv_reachable {w : World} (h : Reachable w) : Inv w := by
  obtain ⟨w0, hInit, hsteps⟩ := h
  induction hsteps with
  | refl => exact inv_init hInit
  | tail _ hstep ih =>
      obtain ⟨op, hop⟩ := hstep
      exact inv_applyOp ih hop

/-! ### Claim theorems -/

theorem name_seed_eq_take (name : String) :
    name_seed name = (utf8Bytes name).take 32 := by
  unfold name_seed
  by_cases h : (utf8Bytes name).length > 32
  · simp [h]
  · push_neg at h
    simp only [if_neg (by omega : ¬ (utf8Bytes name).length > 32)]
    exact (List.take_of_length_le h).symm

/-- C9: address derivation is a pure, deterministic function of owner and
name; only the first 32 bytes of the name contribute (names sharing their
first 32 UTF-8 bytes collide), and distinct truncated names give distinct
addresses (the underlying hash is assumed collision-resistant, the derived
address being modelled by its seed tuple). -/
theorem address_derivation_pure :
    (∀ owner name, listAddress owner name = listAddress owner name) ∧
    (∀ owner n1 n2, (utf8Bytes n1).take 32 = (utf8Bytes n2).take 32 →
      listAddress owner n1 = listAddress owner n2) ∧
    (∀ owner n1 n2, name_seed n1 ≠ name_seed n2 →
      listAddress owner n1 ≠ listAddress owner n2) := by
  refine ⟨fun _ _ => rfl, ?_, ?_⟩
  · intro owner n1 n2 h
    unfold listAddress
    rw [name_seed_eq_take, name_seed_eq_take, h]
  · intro owner n1 n2 hne heq
    apply hne
    have := congrArg ListAddr.seed heq
    simpa [listAddress] using this

/-- Witness for C9 at concrete inputs: a 33-byte name and a 34-byte name
sharing their first 32 bytes derive the same address, and the one-byte
names "a" and "b" derive different addresses. -/
theorem address_derivation_pure_witness :
    ((utf8Bytes "aaaaaaaaaaaaaaaaaaaaaaaaaaaaaaaax").take 32
        = (utf8Bytes "aaaaaaaaaaaaaaaaaaaaaaaaaaaaaaaayz").take 32 ∧
      listAddress 7 "aaaaaaaaaaaaaaaaaaaaaaaaaaaaaaaax"
        = listAddress 7 "aaaaaaaaaaaaaaaaaaaaaaaaaaaaaaaayz") ∧
    (name_seed "a" ≠ name_seed "b" ∧ listAddress 7 "a" ≠ listAddress 7 "b") :=
  ⟨⟨by decide, address_derivation_pure.2.1 7 _ _ (by decide)⟩,
   ⟨by decide, address_derivation_pure.2.2 7 _ _ (by decide)⟩⟩

theorem lines_nodup_of_inv {w : World} {addr : ListAddr} {list : TodoList}
    (hInv : Inv w) (hl : alookup w.lists addr = some list) :
    list.lines.Nodup := by
  obtain ⟨l1, l2, hdecomp, h1, h2⟩ := alookup_split_nodup hInv.listKeys hl
  have hw : w = ⟨l1 ++ (addr, list) :: l2, w.items, w.lam⟩ := by
    cases w; simp at hdecomp ⊢; exact hdecomp
  have hflat : flatLines w = (l1.map fun p => p.2.lines).flatten
      ++ (list.lines ++ (l2.map fun p => p.2.lines).flatten) := by
    rw [hw]; exact flatLines_decomp l1 l2 addr list w.items w.lam
  have hnd := hInv.flatNodup
  rw [hflat] at hnd
  exact (List.nodup_append.mp (List.nodup_append.mp hnd).2.1).1

/-- C4: in every world reachable by any sequence of `new_list`, `add`,
`cancel` and `finish` requests, no list holds more item references than the
capacity fixed at its creation. -/
theorem list_capacity_invariant {w : World} (h : Reachable w) :
    ∀ p, p ∈ w.lists → p.2.lines.length ≤ p.2.capacity :=
  (inv_reachable h).cap

/-- C10: in every reachable world the item references are pairwise distinct
across all lists, so the retain-based removal used by `cancel` and `finish`
is order-preserving and deletes exactly one reference. -/
theorem references_distinct_and_removal_exact {w : World} (h : Reachable w) :
    (flatLines w).Nodup ∧
    ∀ addr list, alookup w.lists addr = some list →
      ∀ k, k ∈ list.lines →
        list.lines.filter (· ≠ k) = list.lines.erase k ∧
        List.Sublist (list.lines.filter (· ≠ k)) list.lines ∧
        (list.lines.filter (· ≠ k)).length + 1 = list.lines.length := by
  have hInv := inv_reachable h
  refine ⟨hInv.flatNodup, ?_⟩
  intro addr list hl k hk
  have hnd := lines_nodup_of_inv hInv hl
  refine ⟨nodup_filter_ne_eq_erase hnd, List.filter_sublist _, ?_⟩
  rw [nodup_filter_ne_eq_erase hnd]
  exact List.length_erase_add_one hk

/-- A pristine world used by the reachability witnesses. -/
def wA : World := ⟨[], [], fun _ => 100⟩

/-- `wA` after `new_list` made owner 1's list "chores" with capacity 2. -/
def wB : World :=
  ⟨[(listAddress 1 "chores",
      { list_owner := 1, capacity := 2, bump := 0, name := "chores", lines := [] })],
   [], fun _ => 100⟩

/-- `wB` after user 2 added item account 10 named "dishes" with bounty 30
(rent deposit 5, so 25 lamports were transferred on top of it). -/
def wC : World :=
  ⟨[(listAddress 1 "chores",
      { list_owner := 1, capacity := 2, bump := 0, name := "chores", lines := [10] })],
   [(10, { creator := 2, creator_finished := false, list_owner_finished := false,
           name := "dishes" })],
   upd (upd (upd (upd (fun _ => 100) 2 95) 10 5) 2 70) 10 30⟩

theorem wB_reachable : Reachable wB :=
  ⟨wA, ⟨rfl, rfl⟩,
    Relation.ReflTransGen.single ⟨Op.opNewList 1 "chores" 2 0, rfl⟩⟩

theorem wC_reachable : Reachable wC :=
  ⟨wA, ⟨rfl, rfl⟩,
    Relation.ReflTransGen.tail
      (Relation.ReflTransGen.single ⟨Op.opNewList 1 "chores" 2 0, rfl⟩)
      ⟨Op.opAdd 2 10 1 "chores" "dishes" 30 5, rfl⟩⟩

/-- Witness for C4: a concrete reachable world satisfying the bound. -/
theorem list_capacity_invariant_witness :
    Reachable wB ∧ ∀ p, p ∈ wB.lists → p.2.lines.length ≤ p.2.capacity :=
  ⟨wB_reachable, list_capacity_invariant wB_reachable⟩

/-- Witness for C10: a concrete reachable world holding one item. -/
theorem references_distinct_and_removal_exact_witness :
    Reachable wC ∧
    ((flatLines wC).Nodup ∧
      ∀ addr list, alookup wC.lists addr = some list →
        ∀ k, k ∈ list.lines →
          list.lines.filter (· ≠ k) = list.lines.erase k ∧
          List.Sublist (list.lines.filter (· ≠ k)) list.lines ∧
          (list.lines.filter (· ≠ k)).length + 1 = list.lines.length) :=
  ⟨wC_reachable, references_distinct_and_removal_exact wC_reachable⟩

theorem aset_aset {α β : Type} [DecidableEq α] (l : List (α × β)) (a : α)
    (b b2 : β) : aset (aset l a b) a b2 = aset l a b2 := by
  induction l with
  | nil => rfl
  | cons p rest ih =>
      by_cases hk : p.1 = a
      · show aset ((if p.1 = a then (a, b) else p) :: aset rest a b) a b2 = _
        rw [if_pos hk]
        show (if (a, b).1 = a then (a, b2) else (a, b)) :: aset (aset rest a b) a b2
            = (if p.1 = a then (a, b2) else p) :: aset rest a b2
        rw [if_pos rfl, if_pos hk, ih]
      · show aset ((if p.1 = a then (a, b) else p) :: aset rest a b) a b2 = _
        rw [if_neg hk]
        show (if p.1 = a then (a, b2) else p) :: aset (aset rest a b) a b2
            = (if p.1 = a then (a, b2) else p) :: aset rest a b2
        rw [ih]

/-- The shared finalize step of the two item-closing paths ("destroy the
item record, pay its whole balance to `recipient`, drop the reference"):
the world both `cancel` and the double-confirmed branch of `finish`
produce. -/
def closeWorld (w : World) (addr : ListAddr) (list : TodoList)
    (recipient k : Pubkey) : World :=
  ⟨aset w.lists addr { list with lines := list.lines.filter (· ≠ k) },
   aremove w.items k,
   upd (upd w.lam recipient (w.lam recipient + w.lam k)) k 0⟩

/-- C5: `add` against a list whose reference count equals its capacity
fails with `ListFull`; the transaction aborts, so no record is created, the
reference sequence is unchanged and no funds move. -/
theorem add_list_full {u k lo : Pubkey} {ln itn : String} {bo r : Nat}
    {w : World} {list : TodoList}
    (hl : alookup w.lists (listAddress lo ln) = some list)
    (ho : list.list_owner = lo)
    (hfresh : alookup w.items k = none)
    (hrent : r ≤ w.lam u)
    (hfull : list.lines.length = list.capacity) :
    add u k lo ln itn bo r w = .error (.program .ListFull) := by
  simp only [add, hl, hfresh]
  rw [if_neg (fun hne => hne ho),
    if_neg (by omega : ¬ w.lam u < r),
    if_neg (by omega : ¬ list.lines.length < list.capacity)]

theorem add_gap_negative {u k lo : Pubkey} {ln itn : String} {bo r : Nat}
    {w : World} {list : TodoList}
    (hl : alookup w.lists (listAddress lo ln) = some list)
    (ho : list.list_owner = lo)
    (hfresh : alookup w.items k = none)
    (hrent : r ≤ w.lam u)
    (hnotfull : list.lines.length < list.capacity)
    (hb : bo < r) :
    add u k lo ln itn bo r w = .error (.program .BountyTooSmall) := by
  simp only [add, hl, hfresh]
  rw [if_neg (fun hne => hne ho),
    if_neg (by omega : ¬ w.lam u < r),
    if_pos hnotfull]
  simp only [upd, eq_self_iff_true, if_true]
  rw [if_pos hb]

/-- C6: `add` with a bounty strictly below the baseline existence deposit
already held by the freshly initialized item record fails with
`BountyTooSmall` (via checked subtraction), so no record is kept, no
reference is added and no funds move. -/
theorem add_bounty_too_small {u k lo : Pubkey} {ln itn : String} {bo r : Nat}
    {w : World} {list : TodoList}
    (hl : alookup w.lists (listAddress lo ln) = some list)
    (ho : list.list_owner = lo)
    (hfresh : alookup w.items k = none)
    (hrent : r ≤ w.lam u)
    (hnotfull : list.lines.length < list.capacity)
    (hb : bo < r) :
    add u k lo ln itn bo r w = .error (.program .BountyTooSmall) :=
  add_gap_negative hl ho hfresh hrent hnotfull hb

/-- Counterexample to C7 as stated: when the baseline existence deposit
(5 lamports of rent) exceeds the requested bounty (3), `add` does not
succeed with the excess folded into the bounty — it fails with
`BountyTooSmall`. -/
theorem add_excess_baseline_counterexample :
    add 2 10 1 "chores" "dishes" 3 5 wB = .error (.program .BountyTooSmall) := rfl

/-- C7 (amended): when the requested bounty is at least the baseline
existence deposit, `add` succeeds; the item account ends up custodying
exactly the bounty and the creator is debited exactly the bounty, by a
transfer of exactly the positive funding gap on top of the deposit, or by
no transfer at all when the gap is zero.  When the baseline deposit
exceeds the bounty, `add` fails with `BountyTooSmall` instead of
succeeding with the excess. -/
theorem add_funding_gap {u k lo : Pubkey} {ln itn : String} {bo r : Nat}
    {w : World} {list : TodoList}
    (hl : alookup w.lists (listAddress lo ln) = some list)
    (ho : list.list_owner = lo)
    (hfresh : alookup w.items k = none)
    (hrent : r ≤ w.lam u)
    (hnotfull : list.lines.length < list.capacity)
    (huk : u ≠ k)
    (hfunds : bo ≤ w.lam u) :
    (r ≤ bo →
      ∃ w', add u k lo ln itn bo r w = .ok w' ∧
        w'.lam k = bo ∧
        w'.lam u = w.lam u - bo ∧
        (∀ x, x ≠ u → x ≠ k → w'.lam x = w.lam x) ∧
        w'.items = (k, (⟨u, false, false, itn⟩ : ListItem)) :: w.items ∧
        w'.lists = aset w.lists (listAddress lo ln)
          { list with lines := list.lines ++ [k] } ∧
        (bo = r → w'.lam = upd (upd w.lam u (w.lam u - r)) k r)) ∧
    (bo < r → add u k lo ln itn bo r w = .error (.program .BountyTooSmall)) := by
  constructor
  · intro hge
    simp only [add, hl, hfresh]
    rw [if_neg (fun hne => hne ho),
      if_neg (by omega : ¬ w.lam u < r),
      if_pos hnotfull]
    simp only [upd, eq_self_iff_true, if_true, if_neg huk]
    rw [if_neg (by omega : ¬ bo < r)]
    by_cases hgt : 0 < bo - r
    · rw [if_pos hgt, if_neg (by omega : ¬ w.lam u - r < bo - r)]
      refine ⟨_, rfl, ?_, ?_, ?_, rfl, rfl, ?_⟩
      · simp only [upd, eq_self_iff_true, if_true]
        omega
      · simp only [upd, if_neg huk, eq_self_iff_true, if_true]
        omega
      · intro x hxu hxk
        simp only [upd, if_neg hxk, if_neg hxu]
      · intro hbo
        omega
    · rw [if_neg hgt]
      refine ⟨_, rfl, ?_, ?_, ?_, rfl, rfl, ?_⟩
      · simp only [upd, eq_self_iff_true, if_true]
        omega
      · simp only [upd, if_neg huk, eq_self_iff_true, if_true]
        omega
      · intro x hxu hxk
        simp only [upd, if_neg hxk, if_neg hxu]
      · intro _
        rfl
  · exact add_gap_negative hl ho hfresh hrent hnotfull


/-- C8: a cancel or finish call naming an item whose key is not in the given
list's reference sequence fails with `ItemNotFound`, even though the item
record itself exists, and no state changes (the transaction aborts). -/
theorem cancel_finish_item_not_found {u lo ik ic : Pubkey} {ln : String}
    {w : World} {list : TodoList} {item : ListItem}
    (hl : alookup w.lists (listAddress lo ln) = some list)
    (ho : list.list_owner = lo)
    (hitem : alookup w.items ik = some item)
    (hic : ic = item.creator)
    (hauth : list.list_owner = u ∨ item.creator = u)
    (hnot : ik ∉ list.lines) :
    cancel u lo ln ik ic w = .error (.program .ItemNotFound) ∧
    finish u lo ln ik w = .error (.program .ItemNotFound) := by
  constructor
  · simp only [cancel, hl, hitem]
    rw [if_neg (fun hne => hne ho),
      if_neg (fun hne => hne hic),
      if_neg (not_not_intro hauth),
      if_pos hnot]
  · simp only [finish, hl, hitem]
    rw [if_neg (fun hne => hne ho), if_pos hnot]

/-- C3: a caller who is neither the list's stored owner nor the item's
stored creator gets `CancelPermissions` from cancel and `FinishPermissions`
from finish; the transactions abort, so no flag changes, nothing is
destroyed or unlinked, and no funds move. -/
theorem unauthorized_caller_rejected {u lo ik ic : Pubkey} {ln : String}
    {w : World} {list : TodoList} {item : ListItem}
    (hl : alookup w.lists (listAddress lo ln) = some list)
    (ho : list.list_owner = lo)
    (hitem : alookup w.items ik = some item)
    (hic : ic = item.creator)
    (hmem : ik ∈ list.lines)
    (hnotowner : list.list_owner ≠ u)
    (hnotcreator : item.creator ≠ u) :
    cancel u lo ln ik ic w = .error (.program .CancelPermissions) ∧
    finish u lo ln ik w = .error (.program .FinishPermissions) := by
  constructor
  · simp only [cancel, hl, hitem]
    rw [if_neg (fun hne => hne ho),
      if_neg (fun hne => hne hic),
      if_pos (by push_neg; exact ⟨hnotowner, hnotcreator⟩)]
  · simp only [finish, hl, hitem]
    rw [if_neg (fun hne => hne ho), if_neg (not_not_intro hmem)]
    have hc : (decide (item.creator = u) || decide (list.list_owner = u)) = false := by
      simp [hnotowner, hnotcreator]
    rw [if_neg (by rw [hc]; exact Bool.false_ne_true)]


/-- C2: an authorized cancel (caller is the list owner or the stored
creator, the supplied `item_creator` account matches the stored creator,
and the list references the item) destroys the item record, pays its full
custodied balance to the stored creator — never to an owner-caller distinct
from the creator — and removes the item's reference from the list,
whatever the confirmation flags hold. -/
theorem cancel_pays_creator {u lo ik ic : Pubkey} {ln : String}
    {w : World} {list : TodoList} {item : ListItem}
    (hl : alookup w.lists (listAddress lo ln) = some list)
    (ho : list.list_owner = lo)
    (hitem : alookup w.items ik = some item)
    (hic : ic = item.creator)
    (hauth : list.list_owner = u ∨ item.creator = u)
    (hmem : ik ∈ list.lines)
    (hck : item.creator ≠ ik) :
    ∃ w', cancel u lo ln ik ic w = .ok w' ∧
      w' = closeWorld w (listAddress lo ln) list item.creator ik ∧
      alookup w'.items ik = none ∧
      alookup w'.lists (listAddress lo ln)
        = some { list with lines := list.lines.filter (· ≠ ik) } ∧
      w'.lam item.creator = w.lam item.creator + w.lam ik ∧
      w'.lam ik = 0 ∧
      (∀ x, x ≠ item.creator → x ≠ ik → w'.lam x = w.lam x) := by
  refine ⟨closeWorld w (listAddress lo ln) list item.creator ik,
    ?_, rfl, ?_, ?_, ?_, ?_, ?_⟩
  · simp only [cancel, hl, hitem]
    rw [if_neg (fun hne => hne ho), if_neg (fun hne => hne hic),
      if_neg (not_not_intro hauth), if_neg (not_not_intro hmem), hic]
    rfl
  · exact alookup_aremove_self w.items ik
  · exact alookup_aset_self hl _
  · show upd (upd w.lam item.creator (w.lam item.creator + w.lam ik)) ik 0
        item.creator = _
    simp [upd, hck]
  · show upd (upd w.lam item.creator (w.lam item.creator + w.lam ik)) ik 0 ik = 0
    simp [upd]
  · intro x hxc hxk
    show upd (upd w.lam item.creator (w.lam item.creator + w.lam ik)) ik 0 x
        = w.lam x
    simp [upd, hxc, hxk]


/-- One successful `finish` call, characterized: after the caller's flag
update, the item is closed into the list owner exactly when both flags are
true, and otherwise only the flags change. -/
theorem finish_step_char {u lo ik : Pubkey} {ln : String} {w : World}
    {list : TodoList} {item : ListItem}
    (hl : alookup w.lists (listAddress lo ln) = some list)
    (ho : list.list_owner = lo)
    (hitem : alookup w.items ik = some item)
    (hmem : ik ∈ list.lines)
    (hu : item.creator = u ∨ list.list_owner = u) :
    (((item.creator_finished || decide (item.creator = u))
        && (item.list_owner_finished || decide (list.list_owner = u))) = true →
      finish u lo ln ik w = .ok (closeWorld w (listAddress lo ln) list lo ik)) ∧
    (((item.creator_finished || decide (item.creator = u))
        && (item.list_owner_finished || decide (list.list_owner = u))) = false →
      finish u lo ln ik w = .ok
        { w with
            items := aset w.items ik
              (ListItem.mk item.creator
                (item.creator_finished || decide (item.creator = u))
                (item.list_owner_finished || decide (list.list_owner = u))
                item.name) }) := by
  have hauthb : (decide (item.creator = u) || decide (list.list_owner = u)) = true := by
    rcases hu with h | h <;> simp [h]
  simp only [finish, hl, hitem]
  rw [if_neg (fun hne => hne ho), if_neg (not_not_intro hmem), if_pos hauthb]
  constructor
  · intro h
    rw [if_pos h]
    rfl
  · intro h
    rw [if_neg (by rw [h]; exact Bool.false_ne_true)]


theorem finish_creator_fresh {lo ik : Pubkey} {ln : String} {w : World}
    {list : TodoList} {item : ListItem}
    (hl : alookup w.lists (listAddress lo ln) = some list)
    (ho : list.list_owner = lo)
    (hitem : alookup w.items ik = some item)
    (hmem : ik ∈ list.lines)
    (hcf : item.creator_finished = false)
    (hof : item.list_owner_finished = false)
    (hco : item.creator ≠ lo) :
    finish item.creator lo ln ik w = .ok
      { w with items := aset w.items ik
                  (ListItem.mk item.creator true false item.name) } := by
  have h := (finish_step_char hl ho hitem hmem (Or.inl rfl)).2
  have hdc : decide (item.creator = item.creator) = true := by simp
  have hdo : decide (list.list_owner = item.creator) = false := by
    rw [ho, decide_eq_false_iff_not]
    exact fun h2 => hco h2.symm
  rw [hcf, hof, hdc, hdo] at h
  exact h rfl

theorem finish_owner_fresh {lo ik : Pubkey} {ln : String} {w : World}
    {list : TodoList} {item : ListItem}
    (hl : alookup w.lists (listAddress lo ln) = some list)
    (ho : list.list_owner = lo)
    (hitem : alookup w.items ik = some item)
    (hmem : ik ∈ list.lines)
    (hcf : item.creator_finished = false)
    (hof : item.list_owner_finished = false)
    (hco : item.creator ≠ lo) :
    finish lo lo ln ik w = .ok
      { w with items := aset w.items ik
                  (ListItem.mk item.creator false true item.name) } := by
  have h := (finish_step_char hl ho hitem hmem (Or.inr ho)).2
  have hdc : decide (item.creator = lo) = false := by
    rw [decide_eq_false_iff_not]
    exact hco
  have hdo : decide (list.list_owner = lo) = true := by rw [ho]; simp
  rw [hcf, hof, hdc, hdo] at h
  exact h rfl

theorem finish_owner_second {lo ik : Pubkey} {ln : String} {w : World}
    {list : TodoList} {item : ListItem}
    (hl : alookup w.lists (listAddress lo ln) = some list)
    (ho : list.list_owner = lo)
    (hitem : alookup w.items ik = some item)
    (hmem : ik ∈ list.lines) :
    finish lo lo ln ik
      { w with items := aset w.items ik
                  (ListItem.mk item.creator true false item.name) }
      = .ok (closeWorld w (listAddress lo ln) list lo ik) := by
  have hitem1 : alookup (aset w.items ik
      (ListItem.mk item.creator true false item.name)) ik
      = some (ListItem.mk item.creator true false item.name) :=
    alookup_aset_self hitem _
  have h := (finish_step_char
      (w := { w with items := aset w.items ik
                        (ListItem.mk item.creator true false item.name) })
      hl ho hitem1 hmem (Or.inr ho)).1
  have h2 := h (by simp [ho])
  rw [h2]
  show Except.ok (World.mk
      (aset w.lists (listAddress lo ln)
        { list with lines := list.lines.filter (· ≠ ik) })
      (aremove (aset w.items ik (ListItem.mk item.creator true false item.name)) ik)
      (upd (upd w.lam lo (w.lam lo + w.lam ik)) ik 0)) = _
  rw [aremove_aset]
  rfl

theorem finish_creator_second {lo ik : Pubkey} {ln : String} {w : World}
    {list : TodoList} {item : ListItem}
    (hl : alookup w.lists (listAddress lo ln) = some list)
    (ho : list.list_owner = lo)
    (hitem : alookup w.items ik = some item)
    (hmem : ik ∈ list.lines) :
    finish item.creator lo ln ik
      { w with items := aset w.items ik
                  (ListItem.mk item.creator false true item.name) }
      = .ok (closeWorld w (listAddress lo ln) list lo ik) := by
  have hitem1 : alookup (aset w.items ik
      (ListItem.mk item.creator false true item.name)) ik
      = some (ListItem.mk item.creator false true item.name) :=
    alookup_aset_self hitem _
  have h := (finish_step_char
      (w := { w with items := aset w.items ik
                        (ListItem.mk item.creator false true item.name) })
      hl ho hitem1 hmem (Or.inl rfl)).1
  have h2 := h (by simp)
  rw [h2]
  show Except.ok (World.mk
      (aset w.lists (listAddress lo ln)
        { list with lines := list.lines.filter (· ≠ ik) })
      (aremove (aset w.items ik (ListItem.mk item.creator false true item.name)) ik)
      (upd (upd w.lam lo (w.lam lo + w.lam ik)) ik 0)) = _
  rw [aremove_aset]
  rfl


theorem finish_by_creator {lo ik : Pubkey} {ln : String} {w : World}
    {list : TodoList} {t : ListItem}
    (hl : alookup w.lists (listAddress lo ln) = some list)
    (ho : list.list_owner = lo)
    (hitem : alookup w.items ik = some t)
    (hmem : ik ∈ list.lines)
    (hco : t.creator ≠ lo) :
    (t.list_owner_finished = false →
      finish t.creator lo ln ik w = .ok
        { w with items := aset w.items ik
                    (ListItem.mk t.creator true false t.name) }) ∧
    (t.list_owner_finished = true →
      finish t.creator lo ln ik w
        = .ok (closeWorld w (listAddress lo ln) list lo ik)) := by
  have h := finish_step_char hl ho hitem hmem (Or.inl rfl)
  have hdo : decide (list.list_owner = t.creator) = false := by
    rw [ho, decide_eq_false_iff_not]
    exact fun h2 => hco h2.symm
  constructor
  · intro hof
    have h2 := h.2 (by simp [hof, hdo])
    simp only [hof, hdo, eq_self_iff_true, decide_True, Bool.or_true,
      Bool.or_false, Bool.false_or] at h2
    exact h2
  · intro hof
    exact h.1 (by simp [hof])

theorem finish_by_owner {lo ik : Pubkey} {ln : String} {w : World}
    {list : TodoList} {t : ListItem}
    (hl : alookup w.lists (listAddress lo ln) = some list)
    (ho : list.list_owner = lo)
    (hitem : alookup w.items ik = some t)
    (hmem : ik ∈ list.lines)
    (hco : t.creator ≠ lo) :
    (t.creator_finished = false →
      finish lo lo ln ik w = .ok
        { w with items := aset w.items ik
                    (ListItem.mk t.creator false true t.name) }) ∧
    (t.creator_finished = true →
      finish lo lo ln ik w
        = .ok (closeWorld w (listAddress lo ln) list lo ik)) := by
  have h := finish_step_char (u := lo) hl ho hitem hmem (Or.inr ho)
  have hdc : decide (t.creator = lo) = false := by
    rw [decide_eq_false_iff_not]
    exact hco
  have hdoo : decide (list.list_owner = lo) = true := by rw [ho]; simp
  constructor
  · intro hcf
    have h2 := h.2 (by simp [hcf, hdc])
    simp only [hcf, hdc, hdoo, Bool.or_true, Bool.or_false, Bool.false_or] at h2
    exact h2
  · intro hcf
    exact h.1 (by simp [hcf, hdc, hdoo])

theorem finish_creator_repeat {lo ik : Pubkey} {ln : String} {w : World}
    {list : TodoList} {item : ListItem}
    (hl : alookup w.lists (listAddress lo ln) = some list)
    (ho : list.list_owner = lo)
    (hitem : alookup w.items ik = some item)
    (hmem : ik ∈ list.lines)
    (hco : item.creator ≠ lo) :
    finish item.creator lo ln ik
      { w with items := aset w.items ik
                  (ListItem.mk item.creator true false item.name) }
      = .ok { w with items := aset w.items ik
                        (ListItem.mk item.creator true false item.name) } := by
  have hitem1 := alookup_aset_self hitem
    (ListItem.mk item.creator true false item.name)
  have h := (finish_by_creator
      (w := { w with items := aset w.items ik
                        (ListItem.mk item.creator true false item.name) })
      (t := ListItem.mk item.creator true false item.name)
      hl ho hitem1 hmem hco).1 rfl
  refine h.trans ?_
  show Except.ok (World.mk w.lists
      (aset (aset w.items ik (ListItem.mk item.creator true false item.name)) ik
        (ListItem.mk item.creator true false item.name)) w.lam)
    = Except.ok (World.mk w.lists
      (aset w.items ik (ListItem.mk item.creator true false item.name)) w.lam)
  rw [aset_aset]

theorem finish_owner_repeat {lo ik : Pubkey} {ln : String} {w : World}
    {list : TodoList} {item : ListItem}
    (hl : alookup w.lists (listAddress lo ln) = some list)
    (ho : list.list_owner = lo)
    (hitem : alookup w.items ik = some item)
    (hmem : ik ∈ list.lines)
    (hco : item.creator ≠ lo) :
    finish lo lo ln ik
      { w with items := aset w.items ik
                  (ListItem.mk item.creator false true item.name) }
      = .ok { w with items := aset w.items ik
                        (ListItem.mk item.creator false true item.name) } := by
  have hitem1 := alookup_aset_self hitem
    (ListItem.mk item.creator false true item.name)
  have h := (finish_by_owner
      (w := { w with items := aset w.items ik
                        (ListItem.mk item.creator false true item.name) })
      (t := ListItem.mk item.creator false true item.name)
      hl ho hitem1 hmem hco).1 rfl
  refine h.trans ?_
  show Except.ok (World.mk w.lists
      (aset (aset w.items ik (ListItem.mk item.creator false true item.name)) ik
        (ListItem.mk item.creator false true item.name)) w.lam)
    = Except.ok (World.mk w.lists
      (aset w.items ik (ListItem.mk item.creator false true item.name)) w.lam)
  rw [aset_aset]


/-- C1: a successful finish call pays the item's full custodied balance to
the list owner exactly when both confirmation flags are true after the
caller's update (destroying the item record and dropping its reference);
otherwise only the caller's flag changes and no funds move.  With fresh
flags and distinct creator and owner, one call from either single party
never pays out, the two orders of the creator's and owner's calls reach the
same closed, paid-out world, and repeating a party's call changes
nothing more. -/
theorem finish_mutual_confirmation {lo ik : Pubkey} {ln : String} {w : World}
    {list : TodoList} {item : ListItem}
    (hl : alookup w.lists (listAddress lo ln) = some list)
    (ho : list.list_owner = lo)
    (hitem : alookup w.items ik = some item)
    (hmem : ik ∈ list.lines) :
    (∀ u, item.creator = u ∨ list.list_owner = u →
      ((((item.creator_finished || decide (item.creator = u))
          && (item.list_owner_finished || decide (list.list_owner = u))) = true →
        finish u lo ln ik w
          = .ok (closeWorld w (listAddress lo ln) list lo ik)) ∧
       (((item.creator_finished || decide (item.creator = u))
          && (item.list_owner_finished || decide (list.list_owner = u))) = false →
        finish u lo ln ik w = .ok
          { w with
              items := aset w.items ik
                (ListItem.mk item.creator
                  (item.creator_finished || decide (item.creator = u))
                  (item.list_owner_finished || decide (list.list_owner = u))
                  item.name) }))) ∧
    (item.creator_finished = false → item.list_owner_finished = false →
     item.creator ≠ lo →
      (finish item.creator lo ln ik w = .ok
        { w with items := aset w.items ik
                    (ListItem.mk item.creator true false item.name) }) ∧
      (finish lo lo ln ik w = .ok
        { w with items := aset w.items ik
                    (ListItem.mk item.creator false true item.name) }) ∧
      ((finish item.creator lo ln ik w).bind (finish lo lo ln ik)
        = .ok (closeWorld w (listAddress lo ln) list lo ik)) ∧
      ((finish lo lo ln ik w).bind (finish item.creator lo ln ik)
        = .ok (closeWorld w (listAddress lo ln) list lo ik)) ∧
      ((finish item.creator lo ln ik w).bind (finish item.creator lo ln ik)
        = finish item.creator lo ln ik w) ∧
      ((finish lo lo ln ik w).bind (finish lo lo ln ik)
        = finish lo lo ln ik w)) := by
  constructor
  · intro u hu
    exact finish_step_char hl ho hitem hmem hu
  · intro hcf hof hco
    have ha := (finish_by_creator hl ho hitem hmem hco).1 hof
    have hb := (finish_by_owner hl ho hitem hmem hco).1 hcf
    have ha2 : finish item.creator lo ln ik w = .ok
        { w with items := aset w.items ik
                    (ListItem.mk item.creator true false item.name) } := ha
    have hb2 : finish lo lo ln ik w = .ok
        { w with items := aset w.items ik
                    (ListItem.mk item.creator false true item.name) } := hb
    refine ⟨ha2, hb2, ?_, ?_, ?_, ?_⟩
    · rw [ha2]
      exact finish_owner_second hl ho hitem hmem
    · rw [hb2]
      exact finish_creator_second hl ho hitem hmem
    · rw [ha2]
      show finish item.creator lo ln ik
          { w with items := aset w.items ik
                      (ListItem.mk item.creator true false item.name) }
        = Except.ok
            { w with items := aset w.items ik
                        (ListItem.mk item.creator true false item.name) }
      exact finish_creator_repeat hl ho hitem hmem hco
    · rw [hb2]
      show finish lo lo ln ik
          { w with items := aset w.items ik
                      (ListItem.mk item.creator false true item.name) }
        = Except.ok
            { w with items := aset w.items ik
                        (ListItem.mk item.creator false true item.name) }
      exact finish_owner_repeat hl ho hitem hmem hco


/-- The list record stored in `wC`. -/
def listC : TodoList := ⟨1, 2, 0, "chores", [10]⟩

/-- The item record stored in `wC`. -/
def itemC : ListItem := ⟨2, false, false, "dishes"⟩

/-- A world holding a capacity-1 list that is already full. -/
def wFull : World :=
  ⟨[(listAddress 1 "full", ⟨1, 1, 0, "full", [10]⟩)],
   [(10, ⟨2, false, false, "t"⟩)], fun _ => 100⟩

/-- A world where item 10 exists but is not referenced by the list "l". -/
def wD : World :=
  ⟨[(listAddress 1 "l", ⟨1, 2, 0, "l", []⟩)],
   [(10, ⟨2, false, false, "t"⟩)], fun _ => 100⟩

/-- Witness for C5: adding to the full capacity-1 list of `wFull` fails. -/
theorem add_list_full_witness :
    alookup wFull.lists (listAddress 1 "full") = some (⟨1, 1, 0, "full", [10]⟩ : TodoList) ∧
    ((⟨1, 1, 0, "full", [10]⟩ : TodoList)).list_owner = 1 ∧
    alookup wFull.items 11 = none ∧
    5 ≤ wFull.lam 2 ∧
    ((⟨1, 1, 0, "full", [10]⟩ : TodoList)).lines.length = ((⟨1, 1, 0, "full", [10]⟩ : TodoList)).capacity ∧
    add 2 11 1 "full" "x" 30 5 wFull = .error (.program .ListFull) :=
  ⟨rfl, rfl, rfl, by decide, rfl,
    add_list_full rfl rfl rfl (by decide) rfl⟩

/-- Witness for C6: bounty 3 below the rent deposit 5 fails on `wB`. -/
theorem add_bounty_too_small_witness :
    alookup wB.lists (listAddress 1 "chores") = some (⟨1, 2, 0, "chores", []⟩ : TodoList) ∧
    ((⟨1, 2, 0, "chores", []⟩ : TodoList)).list_owner = 1 ∧
    alookup wB.items 10 = none ∧
    5 ≤ wB.lam 2 ∧
    ((⟨1, 2, 0, "chores", []⟩ : TodoList)).lines.length < ((⟨1, 2, 0, "chores", []⟩ : TodoList)).capacity ∧
    3 < 5 ∧
    add 2 10 1 "chores" "laundry" 3 5 wB = .error (.program .BountyTooSmall) :=
  ⟨rfl, rfl, rfl, by decide, by decide, by decide,
    add_bounty_too_small rfl rfl rfl (by decide) (by decide) (by decide)⟩

/-- Witness for C7 (amended) at bounty 30, rent 5 on `wB`. -/
theorem add_funding_gap_witness :
    alookup wB.lists (listAddress 1 "chores") = some (⟨1, 2, 0, "chores", []⟩ : TodoList) ∧
    ((⟨1, 2, 0, "chores", []⟩ : TodoList)).list_owner = 1 ∧
    alookup wB.items 10 = none ∧
    5 ≤ wB.lam 2 ∧
    ((⟨1, 2, 0, "chores", []⟩ : TodoList)).lines.length < ((⟨1, 2, 0, "chores", []⟩ : TodoList)).capacity ∧
    (2 : Pubkey) ≠ 10 ∧
    30 ≤ wB.lam 2 ∧
    ((5 ≤ 30 →
      ∃ w', add 2 10 1 "chores" "dishes" 30 5 wB = .ok w' ∧
        w'.lam 10 = 30 ∧
        w'.lam 2 = wB.lam 2 - 30 ∧
        (∀ x, x ≠ 2 → x ≠ 10 → w'.lam x = wB.lam x) ∧
        w'.items = (10, ((⟨2, false, false, "dishes"⟩) : ListItem)) :: wB.items ∧
        w'.lists = aset wB.lists (listAddress 1 "chores")
          { (⟨1, 2, 0, "chores", []⟩ : TodoList) with
              lines := ((⟨1, 2, 0, "chores", []⟩ : TodoList)).lines ++ [10] } ∧
        (30 = 5 → w'.lam = upd (upd wB.lam 2 (wB.lam 2 - 5)) 10 5)) ∧
     (30 < 5 → add 2 10 1 "chores" "dishes" 30 5 wB = .error (.program .BountyTooSmall))) :=
  ⟨rfl, rfl, rfl, by decide, by decide, by decide, by decide,
    add_funding_gap rfl rfl rfl (by decide) (by decide) (by decide) (by decide)⟩

/-- Witness for C8: item 10 exists in `wD` but list "l" does not reference
it, so cancel and finish both report `ItemNotFound`. -/
theorem cancel_finish_item_not_found_witness :
    alookup wD.lists (listAddress 1 "l") = some (⟨1, 2, 0, "l", []⟩ : TodoList) ∧
    ((⟨1, 2, 0, "l", []⟩ : TodoList)).list_owner = 1 ∧
    alookup wD.items 10 = some (⟨2, false, false, "t"⟩ : ListItem) ∧
    (2 : Pubkey) = ((⟨2, false, false, "t"⟩ : ListItem)).creator ∧
    (((⟨1, 2, 0, "l", []⟩ : TodoList)).list_owner = 2 ∨
      ((⟨2, false, false, "t"⟩ : ListItem)).creator = 2) ∧
    (10 : Pubkey) ∉ ((⟨1, 2, 0, "l", []⟩ : TodoList)).lines ∧
    (cancel 2 1 "l" 10 2 wD = .error (.program .ItemNotFound) ∧
     finish 2 1 "l" 10 wD = .error (.program .ItemNotFound)) :=
  ⟨rfl, rfl, rfl, rfl, Or.inr rfl, by decide,
    cancel_finish_item_not_found rfl rfl rfl rfl (Or.inr rfl) (by decide)⟩

/-- Witness for C3: caller 3 is neither owner 1 nor creator 2 of the item
in `wC`. -/
theorem unauthorized_caller_rejected_witness :
    alookup wC.lists (listAddress 1 "chores") = some listC ∧
    listC.list_owner = 1 ∧
    alookup wC.items 10 = some itemC ∧
    (2 : Pubkey) = itemC.creator ∧
    (10 : Pubkey) ∈ listC.lines ∧
    listC.list_owner ≠ 3 ∧
    itemC.creator ≠ 3 ∧
    (cancel 3 1 "chores" 10 2 wC = .error (.program .CancelPermissions) ∧
     finish 3 1 "chores" 10 wC = .error (.program .FinishPermissions)) :=
  ⟨rfl, rfl, rfl, rfl, by decide, by decide, by decide,
    unauthorized_caller_rejected rfl rfl rfl rfl (by decide) (by decide) (by decide)⟩

/-- Witness for C2: the list owner 1 cancels item 10 of creator 2 in `wC`;
the bounty goes to creator 2, not to the caller. -/
theorem cancel_pays_creator_witness :
    alookup wC.lists (listAddress 1 "chores") = some listC ∧
    listC.list_owner = 1 ∧
    alookup wC.items 10 = some itemC ∧
    (2 : Pubkey) = itemC.creator ∧
    (listC.list_owner = 1 ∨ itemC.creator = 1) ∧
    (10 : Pubkey) ∈ listC.lines ∧
    itemC.creator ≠ 10 ∧
    (∃ w', cancel 1 1 "chores" 10 2 wC = .ok w' ∧
      w' = closeWorld wC (listAddress 1 "chores") listC itemC.creator 10 ∧
      alookup w'.items 10 = none ∧
      alookup w'.lists (listAddress 1 "chores")
        = some { listC with lines := listC.lines.filter (· ≠ 10) } ∧
      w'.lam itemC.creator = wC.lam itemC.creator + wC.lam 10 ∧
      w'.lam 10 = 0 ∧
      (∀ x, x ≠ itemC.creator → x ≠ 10 → w'.lam x = wC.lam x)) :=
  ⟨rfl, rfl, rfl, rfl, Or.inl rfl, by decide, by decide,
    cancel_pays_creator rfl rfl rfl rfl (Or.inl rfl) (by decide) (by decide)⟩

/-- Witness for C1 on `wC`: owner 1, creator 2, fresh item 10. -/
theorem finish_mutual_confirmation_witness :
    alookup wC.lists (listAddress 1 "chores") = some listC ∧
    listC.list_owner = 1 ∧
    alookup wC.items 10 = some itemC ∧
    (10 : Pubkey) ∈ listC.lines ∧
    ((∀ u, itemC.creator = u ∨ listC.list_owner = u →
      ((((itemC.creator_finished || decide (itemC.creator = u))
          && (itemC.list_owner_finished || decide (listC.list_owner = u))) = true →
        finish u 1 "chores" 10 wC
          = .ok (closeWorld wC (listAddress 1 "chores") listC 1 10)) ∧
       (((itemC.creator_finished || decide (itemC.creator = u))
          && (itemC.list_owner_finished || decide (listC.list_owner = u))) = false →
        finish u 1 "chores" 10 wC = .ok
          { wC with
              items := aset wC.items 10
                (ListItem.mk itemC.creator
                  (itemC.creator_finished || decide (itemC.creator = u))
                  (itemC.list_owner_finished || decide (listC.list_owner = u))
                  itemC.name) }))) ∧
    (itemC.creator_finished = false → itemC.list_owner_finished = false →
     itemC.creator ≠ 1 →
      (finish itemC.creator 1 "chores" 10 wC = .ok
        { wC with items := aset wC.items 10
                    (ListItem.mk itemC.creator true false itemC.name) }) ∧
      (finish 1 1 "chores" 10 wC = .ok
        { wC with items := aset wC.items 10
                    (ListItem.mk itemC.creator false true itemC.name) }) ∧
      ((finish itemC.creator 1 "chores" 10 wC).bind (finish 1 1 "chores" 10)
        = .ok (closeWorld wC (listAddress 1 "chores") listC 1 10)) ∧
      ((finish 1 1 "chores" 10 wC).bind (finish itemC.creator 1 "chores" 10)
        = .ok (closeWorld wC (listAddress 1 "chores") listC 1 10)) ∧
      ((finish itemC.creator 1 "chores" 10 wC).bind (finish itemC.creator 1 "chores" 10)
        = finish itemC.creator 1 "chores" 10 wC) ∧
      ((finish 1 1 "chores" 10 wC).bind (finish 1 1 "chores" 10)
        = finish 1 1 "chores" 10 wC))) :=
  ⟨rfl, rfl, rfl, by decide,
    finish_mutual_confirmation rfl rfl rfl (by decide)⟩

end Todos
